import Mathlib

/-!
Formal model of `examples/nodeproppred/mag/rgcn.py` (full-batch RGCN on
ogbn-mag).  Tensors are embedded as total functions `Nat → Nat → ℚ`
(node index × channel); Python dictionaries whose identity and insertion
behaviour matter are embedded as association lists; sparse adjacency
tensors are edge-entry lists together with their sparse sizes.  The
external primitives (`torch.nn.Linear`, `SparseTensor.matmul` with
`reduce='mean'`) are given their documented mathematical semantics.
-/

namespace OgbMag

/-- A dense feature matrix: row index (node) × column index (channel). -/
abbrev Mat := Nat → Nat → ℚ

/-- `torch.nn.Linear(in_channels, out_channels)`: an `out × in` weight
matrix together with a bias vector (`bias=False` is modelled by a zero
bias, see `RGCNConv.relLin`). -/
structure Linear where
  inC : Nat
  weight : Nat → Nat → ℚ
  bias : Nat → ℚ

/-- Apply a linear layer to one feature vector: `W v + b`. -/
def Linear.applyVec (l : Linear) (v : Nat → ℚ) : Nat → ℚ :=
  fun c => (∑ j ∈ Finset.range l.inC, l.weight c j * v j) + l.bias c

/-- Apply a linear layer row-wise to a feature matrix. -/
def Linear.applyMat (l : Linear) (x : Mat) : Mat :=
  fun i => l.applyVec (x i)

/-- `torch_sparse.SparseTensor(row=…, col=…, sparse_sizes=…)`: the list of
(row, col) entries plus the sparse sizes. -/
structure SparseTensor where
  entries : List (Nat × Nat)
  rows : Nat
  cols : Nat

/-- `adj.t()`: transpose swaps every entry and the sizes. -/
def SparseTensor.t (a : SparseTensor) : SparseTensor :=
  ⟨a.entries.map Prod.swap, a.cols, a.rows⟩

/-- `adj.to_symmetric()`: the entry pattern becomes the union of the
pattern with its transpose (value coalescing is irrelevant for an
indicator adjacency). -/
def SparseTensor.toSymmetric (a : SparseTensor) : SparseTensor :=
  ⟨a.entries ++ a.entries.map Prod.swap, a.rows, a.cols⟩

/-- The column indices of the entries sitting in row `i` (with
multiplicity, matching duplicate coordinate entries). -/
def SparseTensor.nbrs (a : SparseTensor) (i : Nat) : List Nat :=
  (a.entries.filter (fun e => e.1 = i)).map Prod.snd

/-- `adj_t.matmul(x, reduce='mean')`: row `i` of the result is the mean of
the rows of `x` selected by the entries of row `i` of `adj_t`; a row with
no entries yields `0` (in ℚ, `s / 0 = 0`, matching the clamped count). -/
def SparseTensor.matmulMean (a : SparseTensor) (x : Mat) : Mat :=
  fun i c => ((a.nbrs i).map (fun j => x j c)).sum / ((a.nbrs i).length : ℚ)

/-- Lookup in an association-list dictionary. -/
def dGet? {κ α : Type} [DecidableEq κ] : List (κ × α) → κ → Option α
  | [], _ => none
  | (k0, v0) :: d, q => if q = k0 then some v0 else dGet? d q

/-- `d[k] = v` on an association-list dictionary: replace the binding if
the key is present, append it otherwise. -/
def dSet {κ α : Type} [DecidableEq κ] : List (κ × α) → κ → α → List (κ × α)
  | [], k, v => [(k, v)]
  | (k0, v0) :: d, k, v =>
      if k0 = k then (k, v) :: d else (k0, v0) :: dSet d k v

/-- An edge type `(src node type, relation, dst node type)`. -/
abbrev EKey := String × String × String

/-- The `RGCNConv` module of `rgcn.py`: per-edge-type linear maps without
bias (`rel_lins`, built with `bias=False`) and per-node-type linear maps
with bias (`root_lins`).  The weight data is kept as raw functions; the
layers themselves are recovered by `relLin` / `rootLin`. -/
structure RGCNConv where
  inChannels : Nat
  outChannels : Nat
  node_types : List String
  edge_types : List EKey
  relWeight : EKey → Nat → Nat → ℚ
  rootWeight : String → Nat → Nat → ℚ
  rootBias : String → Nat → ℚ

/-- `self.rel_lins[...]`: `Linear(in_channels, out_channels, bias=False)`,
so its bias vector is identically `0`. -/
def RGCNConv.relLin (c : RGCNConv) (e : EKey) : Linear :=
  ⟨c.inChannels, c.relWeight e, fun _ => 0⟩

/-- `self.root_lins[...]`: `Linear(in_channels, out_channels, bias=True)`. -/
def RGCNConv.rootLin (c : RGCNConv) (k : String) : Linear :=
  ⟨c.inChannels, c.rootWeight k, c.rootBias k⟩

/-- The per-edge-type contribution exactly as `forward` computes it:
`self.rel_lins[key_str](adj_t.matmul(x, reduce='mean'))` where
`x = x_dict[key[0]]` and `adj_t = adj_t_dict[key]`. -/
def RGCNConv.msg (c : RGCNConv) (x_dict : String → Mat)
    (adj_t_dict : EKey → SparseTensor) (e : EKey) : Mat :=
  (c.relLin e).applyMat ((adj_t_dict e).matmulMean (x_dict e.1))

/-- The same contribution with the two steps exchanged: the linear map is
applied to every source row first and the mean aggregation second. -/
def RGCNConv.msgPre (c : RGCNConv) (x_dict : String → Mat)
    (adj_t_dict : EKey → SparseTensor) (e : EKey) : Mat :=
  (adj_t_dict e).matmulMean ((c.relLin e).applyMat (x_dict e.1))

/-- First loop of `RGCNConv.forward`:
`for key in self.node_types: out_dict[key] = self.root_lins[key](x_dict[key])`. -/
def RGCNConv.initOut (c : RGCNConv) (x_dict : String → Mat) :
    List (String × Mat) :=
  c.node_types.foldl (fun od k => dSet od k ((c.rootLin k).applyMat (x_dict k))) []

/-- One iteration of the second loop of `RGCNConv.forward`:
`out_dict[key[2]].add_(out)`; a missing key raises `KeyError` in Python,
modelled by `none`. -/
def RGCNConv.step (c : RGCNConv) (x_dict : String → Mat)
    (adj_t_dict : EKey → SparseTensor) (od : List (String × Mat)) (e : EKey) :
    Option (List (String × Mat)) :=
  match dGet? od e.2.2 with
  | none => none
  | some cur => some (dSet od e.2.2 (cur + c.msg x_dict adj_t_dict e))

/-- Variant of `step` with the aggregation exchanged with the linear map. -/
def RGCNConv.stepPre (c : RGCNConv) (x_dict : String → Mat)
    (adj_t_dict : EKey → SparseTensor) (od : List (String × Mat)) (e : EKey) :
    Option (List (String × Mat)) :=
  match dGet? od e.2.2 with
  | none => none
  | some cur => some (dSet od e.2.2 (cur + c.msgPre x_dict adj_t_dict e))

/-- `RGCNConv.forward`: root transforms for every node type, then the
in-place accumulation of every edge type's contribution. -/
def RGCNConv.forward (c : RGCNConv) (x_dict : String → Mat)
    (adj_t_dict : EKey → SparseTensor) : Option (List (String × Mat)) :=
  c.edge_types.foldlM (c.step x_dict adj_t_dict) (c.initOut x_dict)

/-- The forward pass with every relation's linear map applied before the
mean aggregation instead of after it. -/
def RGCNConv.forwardPre (c : RGCNConv) (x_dict : String → Mat)
    (adj_t_dict : EKey → SparseTensor) : Option (List (String × Mat)) :=
  c.edge_types.foldlM (c.stepPre x_dict adj_t_dict) (c.initOut x_dict)

/-- A concrete single-type, single-relation layer used by the witnesses. -/
def convW : RGCNConv where
  inChannels := 1
  outChannels := 1
  node_types := ["paper"]
  edge_types := [("paper", "to", "paper")]
  relWeight := fun _ _ _ => 1
  rootWeight := fun _ _ _ => 1
  rootBias := fun _ _ => 0

/-- The namespace of parsed command-line arguments of `main` (the flags of
`argparse` in the order they are added, with their types). -/
structure Args where
  device : Nat
  log_steps : Nat
  use_sage : Bool
  num_layers : Nat
  hidden_channels : Nat
  dropout : ℚ
  lr : ℚ
  epochs : Nat
  runs : Nat
deriving DecidableEq

/-- One command-line override of a single flag (`--use_sage` is
`action='store_true'`, so it takes no value). -/
inductive ArgOpt
  | device (n : Nat)
  | log_steps (n : Nat)
  | use_sage
  | num_layers (n : Nat)
  | hidden_channels (n : Nat)
  | dropout (q : ℚ)
  | lr (q : ℚ)
  | epochs (n : Nat)
  | runs (n : Nat)

/-- The default values declared by the `parser.add_argument` calls. -/
def defaultArgs : Args where
  device := 0
  log_steps := 1
  use_sage := false
  num_layers := 3
  hidden_channels := 256
  dropout := 1 / 2
  lr := 1 / 100
  epochs := 300
  runs := 10

/-- Apply one parsed flag to the argument namespace. -/
def applyOpt (a : Args) : ArgOpt → Args
  | .device n => { a with device := n }
  | .log_steps n => { a with log_steps := n }
  | .use_sage => { a with use_sage := true }
  | .num_layers n => { a with num_layers := n }
  | .hidden_channels n => { a with hidden_channels := n }
  | .dropout q => { a with dropout := q }
  | .lr q => { a with lr := q }
  | .epochs n => { a with epochs := n }
  | .runs n => { a with runs := n }

/-- `parser.parse_args()`: defaults overridden by the given flags. -/
def parseArgs (l : List ArgOpt) : Args :=
  l.foldl applyOpt defaultArgs

/-- Observable events of one execution of `main`, in program order.  The
per-epoch training loss and split accuracies are produced by the external
numerical library, so they enter the trace through the abstract functions
`lossF` and `resF` below. -/
inductive Ev
  | printArgs (a : Args)
  | selectDevice (d : Option Nat)
  | printData
  | buildModel (hidden numLayers : Nat) (drop : ℚ)
  | resetParams (run : Nat)
  | newOptimizer (run : Nat) (lr : ℚ)
  | zeroGrad (run epoch : Nat)
  | forwardPass (run epoch : Nat)
  | lossNLL (run epoch : Nat) (loss : ℚ)
  | backwardPass (run epoch : Nat)
  | optimStep (run epoch : Nat)
  | evalSplits (run epoch : Nat) (res : ℚ × ℚ × ℚ)
  | logResult (run epoch : Nat)
  | printEpoch (run epoch : Nat) (loss : ℚ) (res : ℚ × ℚ × ℚ)
  | printRunStats (run : Nat)
  | printAggStats
deriving DecidableEq

/-- The events of one call of `train`: `optimizer.zero_grad()`, the model
forward pass, the negative-log-likelihood loss on the training indices,
`loss.backward()`, `optimizer.step()`. -/
def trainEvents (r e : Nat) (loss : ℚ) : List Ev :=
  [.zeroGrad r e, .forwardPass r e, .lossNLL r e loss, .backwardPass r e,
   .optimStep r e]

/-- One iteration of the epoch loop of `main`: the training step, the
evaluation of the three splits, `logger.add_result`, and the per-epoch
print guarded by `epoch % args.log_steps == 0`. -/
def epochBody (a : Args) (lossF : Nat → Nat → ℚ)
    (resF : Nat → Nat → ℚ × ℚ × ℚ) (r e : Nat) : List Ev :=
  trainEvents r e (lossF r e) ++ [.evalSplits r e (resF r e), .logResult r e] ++
    (if e % a.log_steps = 0 then [.printEpoch r e (lossF r e) (resF r e)]
     else [])

/-- The trace of `main` after argument parsing, in the code's own shape:
the nested `for run in range(args.runs)` / `for epoch in range(1,
1 + args.epochs)` loops are the corresponding nested left folds.
`cudaAvail` is `torch.cuda.is_available()`. -/
def mainTrace (cudaAvail : Bool) (a : Args) (lossF : Nat → Nat → ℚ)
    (resF : Nat → Nat → ℚ × ℚ × ℚ) : List Ev :=
  ((List.range a.runs).foldl (fun acc r =>
      ((List.range a.epochs).foldl
          (fun acc2 e0 => acc2 ++ epochBody a lossF resF r (e0 + 1))
          (acc ++ [.resetParams r, .newOptimizer r a.lr]))
        ++ [.printRunStats r])
    [Ev.printArgs a,
     Ev.selectDevice (if cudaAvail then some a.device else none),
     Ev.printData,
     Ev.buildModel a.hidden_channels a.num_layers a.dropout]) ++
  [Ev.printAggStats]

/-- The body of one run in the spec's flat pipeline shape. -/
def runBody (a : Args) (lossF : Nat → Nat → ℚ)
    (resF : Nat → Nat → ℚ × ℚ × ℚ) (r : Nat) : List Ev :=
  [Ev.resetParams r, Ev.newOptimizer r a.lr] ++
    ((List.range a.epochs).flatMap (fun e0 => epochBody a lossF resF r (e0 + 1)) ++
      [Ev.printRunStats r])

/-- The spec's pipeline order, written as flat concatenation: per run, a
reset and a fresh optimizer, then for each epoch the training step
followed by that epoch's evaluation, then the per-run statistics; the
aggregate statistics come last. -/
def mainTraceSpec (cudaAvail : Bool) (a : Args) (lossF : Nat → Nat → ℚ)
    (resF : Nat → Nat → ℚ × ℚ × ℚ) : List Ev :=
  [Ev.printArgs a,
   Ev.selectDevice (if cudaAvail then some a.device else none),
   Ev.printData,
   Ev.buildModel a.hidden_channels a.num_layers a.dropout] ++
  ((List.range a.runs).flatMap (runBody a lossF resF) ++ [Ev.printAggStats])

/-- Recognizer for per-epoch console prints. -/
def Ev.isPrintEpoch : Ev → Bool
  | .printEpoch _ _ _ _ => true
  | _ => false

/-- Recognizer for per-run statistics prints. -/
def Ev.isPrintRunStats : Ev → Bool
  | .printRunStats _ => true
  | _ => false

/-- Recognizer for optimizer steps. -/
def Ev.isOptimStep : Ev → Bool
  | .optimStep _ _ => true
  | _ => false

/-- Recognizer for optimizer constructions carrying learning rate `q`. -/
def Ev.isNewOptWithLr (q : ℚ) : Ev → Bool
  | .newOptimizer _ lr0 => lr0 == q
  | _ => false

/-- The argument namespace used by the C7 counterexample: `--log_steps 2`
with a single one-epoch run. -/
def exArgs7 : Args where
  device := 0
  log_steps := 2
  use_sage := false
  num_layers := 3
  hidden_channels := 4
  dropout := 0
  lr := 1
  epochs := 1
  runs := 1

/-- The mode flags under which `test` invokes the model callable:
`model.eval()` clears `training` and the `@torch.no_grad()` decorator
clears gradient tracking. -/
structure EvalCtx where
  training : Bool
  gradEnabled : Bool
deriving DecidableEq

/-- `out.argmax(dim=-1)` on one row of `numClasses` entries: the first
index attaining the maximum. -/
def argmaxIdx (v : Nat → ℚ) (numClasses : Nat) : Nat :=
  (List.range numClasses).foldl (fun best j => if v best < v j then j else best) 0

/-- Modelled from the spec: the OGB `Evaluator` for ogbn-mag lives in the
`ogb` package outside `src/`; per the spec it reports accuracy, the
fraction of indices whose prediction equals the label. -/
def accuracy (y_true y_pred : Nat → Nat) (idx : List Nat) : ℚ :=
  ((idx.countP (fun i => y_true i = y_pred i) : ℚ)) / ((idx.length : ℚ))

/-- `split_idx[...]['paper']`: the three splits' paper-node index lists. -/
structure SplitIdx where
  train : List Nat
  valid : List Nat
  test : List Nat

/-- The `test` function of `rgcn.py`: the model is put in eval mode and
called under `torch.no_grad`, `y_pred` is the row-wise argmax of its
output, and the returned triple is the evaluator accuracy on the train,
valid and test paper indices, in that order. -/
def testFn (model : EvalCtx → Mat) (numClasses : Nat) (y_true : Nat → Nat)
    (split_idx : SplitIdx) : ℚ × ℚ × ℚ :=
  let out := model ⟨false, false⟩
  let y_pred := fun i => argmaxIdx (out i) numClasses
  (accuracy y_true y_pred split_idx.train,
   accuracy y_true y_pred split_idx.valid,
   accuracy y_true y_pred split_idx.test)

/-- A path naming one learnable tensor of the `RGCN` module: a node-type
embedding, an input linear layer, or a relation/root linear of one of the
convolution layers. -/
inductive PKey
  | emb (k : String)
  | lin (k : String)
  | rel (layer : Nat) (e : EKey)
  | root (layer : Nat) (k : String)
deriving DecidableEq

/-- The learnable state, one abstract value per parameter tensor. -/
abbrev Params := PKey → ℚ

/-- The shape of an `RGCN` module: which parameter paths exist (embedding
keys, input linear keys, and per conv layer its relation and root keys). -/
structure RGCNShape where
  embKeys : List String
  linKeys : List String
  convs : List (List EKey × List String)

/-- The parameter paths in the exact order `RGCN.reset_parameters` visits
them: embeddings (`xavier_uniform_`), input linears, then every conv in
order, each resetting its relation linears before its root linears. -/
def RGCNShape.allKeys (sh : RGCNShape) : List PKey :=
  sh.embKeys.map PKey.emb ++ sh.linKeys.map PKey.lin ++
    sh.convs.enum.flatMap (fun ic =>
      ic.2.1.map (PKey.rel ic.1) ++ ic.2.2.map (PKey.root ic.1))

/-- Mirror of `RGCN.__init__`: embeddings for the node types without input
features, input linears for the feature-carrying types, `num_layers - 1`
full convolutions, and a final convolution restricted to the output node
type and the edge types pointing at it. -/
def RGCNShape.ofConfig (node_types x_types : List String)
    (edge_types : List EKey) (num_layers : Nat) (out_type : String) :
    RGCNShape where
  embKeys := node_types.filter (fun k => ¬ k ∈ x_types)
  linKeys := x_types
  convs :=
    (List.range (num_layers - 1)).map (fun _ => (edge_types, node_types)) ++
      [(edge_types.filter (fun e => e.2.2 = out_type), [out_type])]

/-- Sequentially overwrite the tensors named by `ks` with fresh draws from
the random stream, advancing the stream position by one per tensor
(`xavier_uniform_` and `Linear.reset_parameters` both draw fresh values
that do not depend on the tensor's previous content). -/
def writeSeq (rand : Nat → ℚ) (ks : List PKey) (p : Params) (s : Nat) :
    Params × Nat :=
  ks.foldl (fun q k => (fun k2 => if k2 = k then rand q.2 else q.1 k2, q.2 + 1))
    (p, s)

/-- `RGCN.reset_parameters()`. -/
def resetParameters (rand : Nat → ℚ) (sh : RGCNShape) (p : Params) (s : Nat) :
    Params × Nat :=
  writeSeq rand sh.allKeys p s

/-- `torch.optim.Adam(model.parameters(), lr=args.lr)`: the freshly
constructed optimizer state (zero moment estimates, zero step count). -/
structure AdamState where
  lr : ℚ
  stepCount : Nat
  m1 : PKey → ℚ
  m2 : PKey → ℚ

/-- A fresh Adam optimizer. -/
def AdamState.init (lr : ℚ) : AdamState :=
  ⟨lr, 0, fun _ => 0, fun _ => 0⟩

/-- One training dynamics: how a `train` call updates parameters and
optimizer state (delegated to the external autograd library) and how many
random draws (dropout masks) each call consumes from the global stream. -/
structure TrainDyn where
  update : Params → AdamState → Params × AdamState
  rngCost : Nat

/-- The epoch loop of one run: `for epoch in range(1, 1 + args.epochs)`,
each iteration one `train` call. -/
def epochsLoop (dyn : TrainDyn) (epochs : Nat) (st : Params × AdamState × Nat) :
    Params × AdamState × Nat :=
  (List.range epochs).foldl (fun st2 _ =>
    ((dyn.update st2.1 st2.2.1).1, (dyn.update st2.1 st2.2.1).2,
      st2.2.2 + dyn.rngCost)) st

/-- One iteration of `main`'s run loop: `model.reset_parameters()`, then
`optimizer = torch.optim.Adam(model.parameters(), lr=args.lr)`, then the
epoch loop.  The first component is the run-start observation: the value
of every parameter path right after the reset, and the optimizer the
epoch loop starts from. -/
def doRun (rand : Nat → ℚ) (sh : RGCNShape) (dyn : TrainDyn) (lr : ℚ)
    (epochs : Nat) (st : Params × Nat) :
    (List ℚ × AdamState) × (Params × Nat) :=
  let w := writeSeq rand sh.allKeys st.1 st.2
  let fin := epochsLoop dyn epochs (w.1, AdamState.init lr, w.2)
  ((sh.allKeys.map w.1, AdamState.init lr), (fin.1, fin.2.2))

/-- The run-start observations of all `runs` runs of `main`'s outer loop,
starting from parameter state `p0` and random-stream position `seed0`. -/
def runStarts (rand : Nat → ℚ) (sh : RGCNShape) (dyn : TrainDyn) (lr : ℚ)
    (epochs runs : Nat) (p0 : Params) (seed0 : Nat) :
    List (List ℚ × AdamState) :=
  ((List.range runs).foldl (fun acc _ =>
      (acc.1 ++ [(doRun rand sh dyn lr epochs acc.2).1],
        (doRun rand sh dyn lr epochs acc.2).2)) ([], (p0, seed0))).1

/-- A heap of tensor objects: the next fresh reference and the content of
every reference.  Tensor-valued Python variables are references into the
heap; in-place torch operations overwrite a reference's content. -/
structure Heap where
  nextRef : Nat
  mem : Nat → Mat

/-- Allocate a fresh tensor object, returning its reference. -/
def Heap.alloc (h : Heap) (m : Mat) : Nat × Heap :=
  (h.nextRef, ⟨h.nextRef + 1, fun r => if r = h.nextRef then m else h.mem r⟩)

/-- Overwrite the object behind `r` (an in-place torch operation such as
`add_` or `relu_`). -/
def Heap.write (h : Heap) (r : Nat) (m : Mat) : Heap :=
  ⟨h.nextRef, fun r2 => if r2 = r then m else h.mem r2⟩

/-- `F.relu_`, element-wise (the in-place aspect is `Heap.write`). -/
def reluMat (x : Mat) : Mat :=
  fun i c => max (x i c) 0

/-- `F.dropout(x, p, training)`: the identity in eval mode; in training
mode a rescaled masked copy, with `mask` the abstract Bernoulli draw of
the external RNG.  Its default `inplace=False` means a fresh tensor. -/
def dropoutF (mask : Mat) (p : ℚ) (training : Bool) (x : Mat) : Mat :=
  if training then fun i c => x i c * mask i c / (1 - p) else x

/-- One iteration of the first loop of the heap-level `RGCNConv.forward`:
allocate the fresh tensor `self.root_lins[key](x_dict[key])` and bind it
in `out_dict`. -/
def RGCNConvH.rootStep (c : RGCNConv) (xref : String → Nat)
    (p : List (String × Nat) × Heap) (k : String) :
    List (String × Nat) × Heap :=
  let a := Heap.alloc p.2 ((c.rootLin k).applyMat (p.2.mem (xref k)))
  (dSet p.1 k a.1, a.2)

/-- One iteration of the second loop: allocate the fresh `out` tensor of
this edge type, then accumulate it in place (`out_dict[key[2]].add_(out)`)
into the existing entry.  When the target type is absent Python raises
`KeyError` after the allocation and before any write; the model skips the
update (no write happens either way). -/
def RGCNConvH.addStep (c : RGCNConv) (xref : String → Nat)
    (adj_t_dict : EKey → SparseTensor) (p : List (String × Nat) × Heap)
    (e : EKey) : List (String × Nat) × Heap :=
  let out := (c.relLin e).applyMat
    ((adj_t_dict e).matmulMean (p.2.mem (xref e.1)))
  let a := Heap.alloc p.2 out
  match dGet? p.1 e.2.2 with
  | some r => (p.1, Heap.write a.2 r (a.2.mem r + a.2.mem a.1))
  | none => (p.1, a.2)

/-- `RGCNConv.forward` at the heap level: the root-linear loop over the
node types, then the in-place accumulation loop over the edge types. -/
def RGCNConvH.forward (c : RGCNConv) (xref : String → Nat)
    (adj_t_dict : EKey → SparseTensor) (h : Heap) :
    List (String × Nat) × Heap :=
  c.edge_types.foldl (RGCNConvH.addStep c xref adj_t_dict)
    (c.node_types.foldl (RGCNConvH.rootStep c xref)
      (([] : List (String × Nat)), h))

/-- The data of the `RGCN` module needed by the heap-level forward pass:
input linears, the heap references of the embedding parameter tensors,
the convolution layers, the dropout probability, the output node type. -/
structure RGCNNetH where
  lins : String → Linear
  embKeys : List String
  embRef : String → Nat
  convs : List RGCNConv
  p : ℚ
  out_type : String

/-- Read a reference dictionary as a total map (`0` stands in for the
reference a Python `KeyError` would otherwise interrupt on). -/
def refOf (d : List (String × Nat)) (k : String) : Nat :=
  (dGet? d k).getD 0

/-- One iteration of `for key, x in x_dict.items(): x_dict[key] =
self.lins[key](x)`: a fresh tensor, rebound in the copied dictionary. -/
def RGCNNetH.linStep (net : RGCNNetH) (p : List (String × Nat) × Heap)
    (kr : String × Nat) : List (String × Nat) × Heap :=
  let a := Heap.alloc p.2 ((net.lins kr.1).applyMat (p.2.mem kr.2))
  (dSet p.1 kr.1 a.1, a.2)

/-- One iteration of the post-conv item loop: `x_dict[key] = F.relu_(x)`
(in place on the conv output) then `x_dict[key] = F.dropout(x, …)`
(a fresh tensor, rebound). -/
def RGCNNetH.reluDropStep (net : RGCNNetH) (training : Bool)
    (mask : String → Mat) (p : List (String × Nat) × Heap)
    (kr : String × Nat) : List (String × Nat) × Heap :=
  let h2 := Heap.write p.2 kr.2 (reluMat (p.2.mem kr.2))
  let a := Heap.alloc h2 (dropoutF (mask kr.1) net.p training (h2.mem kr.2))
  (dSet p.1 kr.1 a.1, a.2)

/-- One iteration of `for conv in self.convs[:-1]`: the conv forward,
then relu/dropout over the items of its output dictionary. -/
def RGCNNetH.convStep (net : RGCNNetH) (training : Bool)
    (masks : Nat → String → Mat) (adj_t_dict : EKey → SparseTensor)
    (p : List (String × Nat) × Heap) (ic : Nat × RGCNConv) :
    List (String × Nat) × Heap :=
  let o := RGCNConvH.forward ic.2 (refOf p.1) adj_t_dict p.2
  o.1.foldl (net.reluDropStep training (masks ic.1)) o

/-- `RGCN.forward` up to (excluding) the final conv layer: the copied
dictionary through the input-linear loop, the embedding aliasing loop
(`x_dict[key] = emb`), and the `convs[:-1]` loop. -/
def RGCNNetH.stage (net : RGCNNetH) (training : Bool)
    (masks : Nat → String → Mat) (x_dict : List (String × Nat))
    (adj_t_dict : EKey → SparseTensor) (h : Heap) :
    List (String × Nat) × Heap :=
  net.convs.dropLast.enum.foldl (net.convStep training masks adj_t_dict)
    (net.embKeys.foldl (fun d k => dSet d k (net.embRef k))
        (x_dict.foldl net.linStep (x_dict, h)).1,
      (x_dict.foldl net.linStep (x_dict, h)).2)

/-- `RGCN.forward` at the heap level: `x_dict = copy.copy(x_dict)` (the
caller's dictionary is a value here and is never rebound), the
input-linear and embedding loops, the `convs[:-1]` loop with relu and
dropout (`stage`), then `convs[-1]` and the fresh `log_softmax` output.
`masks` abstracts the dropout masks per layer and key, `lsm` the
`log_softmax` values. -/
def RGCNNetH.forward (net : RGCNNetH) (training : Bool)
    (masks : Nat → String → Mat) (lsm : Mat → Mat)
    (x_dict : List (String × Nat)) (adj_t_dict : EKey → SparseTensor)
    (h : Heap) : Option Nat × Heap :=
  let s3 := net.stage training masks x_dict adj_t_dict h
  match net.convs.getLast? with
  | none => (none, s3.2)
  | some cl =>
    let o := RGCNConvH.forward cl (refOf s3.1) adj_t_dict s3.2
    match dGet? o.1 net.out_type with
    | none => (none, o.2)
    | some r =>
      let a := Heap.alloc o.2 (lsm (o.2.mem r))
      (some a.1, a.2)

/-- Frame predicate: the allocator of `h` is at or past `n0` and below
`n0` the heap contents agree with `m0`. -/
def HeapLow (n0 : Nat) (m0 : Nat → Mat) (h : Heap) : Prop :=
  n0 ≤ h.nextRef ∧ ∀ r, r < n0 → h.mem r = m0 r

/-- The invariant carried through the conv-level folds: the heap frame
below `n0` is intact and every reference in the dictionary is fresh. -/
def ConvInv (n0 : Nat) (m0 : Nat → Mat) (p : List (String × Nat) × Heap) :
    Prop :=
  HeapLow n0 m0 p.2 ∧ ∀ kr ∈ p.1, n0 ≤ kr.2

/-- A tiny concrete net for the C9 witness. -/
def netW : RGCNNetH where
  lins := fun _ => ⟨1, fun _ _ => 1, fun _ => 0⟩
  embKeys := []
  embRef := fun _ => 0
  convs := [convW]
  p := 0
  out_type := "paper"

/-- One iteration of the conversion loop in `main`: build
`adj = SparseTensor(row=row, col=col, sparse_sizes=(num_nodes[s], num_nodes[d]))`;
for `s ≠ d` store `adj.t()` under the original key and `adj` under the
reversed key `(d, 'to', s)`; for `s = d` store `adj.to_symmetric()`. -/
def adjStep (numNodes : String → Nat) (d : List (EKey × SparseTensor))
    (p : EKey × List Nat × List Nat) : List (EKey × SparseTensor) :=
  let adj : SparseTensor :=
    ⟨p.2.1.zip p.2.2, numNodes p.1.1, numNodes p.1.2.2⟩
  if p.1.1 ≠ p.1.2.2 then
    dSet (dSet d p.1 adj.t) (p.1.2.2, "to", p.1.1) adj
  else
    dSet d p.1 adj.toSymmetric

/-- The conversion loop over `data.edge_index_dict.items()`. -/
def buildAdjTDict (numNodes : String → Nat)
    (eid : List (EKey × List Nat × List Nat)) : List (EKey × SparseTensor) :=
  eid.foldl (adjStep numNodes) []

/-- The graph data after the conversion block of `main`. -/
structure ConvertedData where
  adj_t_dict : List (EKey × SparseTensor)
  edge_index_dict : Option (List (EKey × List Nat × List Nat))

/-- `data.adj_t_dict = {…}` followed by `data.edge_index_dict = None`. -/
def convertGraph (numNodes : String → Nat)
    (eid : List (EKey × List Nat × List Nat)) : ConvertedData :=
  ⟨buildAdjTDict numNodes eid, none⟩

/-- The dictionary keys written by one iteration of the conversion loop. -/
def writtenKeys (p : EKey × List Nat × List Nat) : List EKey :=
  if p.1.1 ≠ p.1.2.2 then [p.1, (p.1.2.2, "to", p.1.1)] else [p.1]

end OgbMag

namespace OgbMag

theorem dGet?_dSet {κ α : Type} [DecidableEq κ] (d : List (κ × α)) (k q : κ)
    (v : α) : dGet? (dSet d k v) q = if q = k then some v else dGet? d q := by
  induction d with
  | nil =>
    by_cases hq : q = k <;> simp [dSet, dGet?, hq]
  | cons p d ih =>
    obtain ⟨k0, v0⟩ := p
    by_cases hk : k0 = k
    · subst hk
      by_cases hq : q = k0 <;> simp [dSet, dGet?, hq]
    · by_cases hq : q = k0
      · subst hq
        have hne : ¬ q = k := hk
        simp [dSet, dGet?, hk, hne]
      · simp [dSet, dGet?, hk, hq, ih]

theorem foldSet_get {κ α : Type} [DecidableEq κ] (f : κ → α) (l : List κ)
    (d0 : List (κ × α)) (k : κ) :
    dGet? (l.foldl (fun od k0 => dSet od k0 (f k0)) d0) k =
      if k ∈ l then some (f k) else dGet? d0 k := by
  induction l generalizing d0 with
  | nil => simp
  | cons a l ih =>
    rw [List.foldl_cons, ih]
    by_cases hal : k ∈ l
    · simp [hal]
    · by_cases hka : k = a
      · subst hka
        simp [hal, dGet?_dSet]
      · simp [hal, hka, dGet?_dSet]

theorem initOut_get (c : RGCNConv) (x_dict : String → Mat) (k : String) :
    dGet? (c.initOut x_dict) k =
      if k ∈ c.node_types then some ((c.rootLin k).applyMat (x_dict k))
      else none := by
  unfold RGCNConv.initOut
  rw [foldSet_get]
  simp [dGet?]

theorem stepFold_get (c : RGCNConv) (x_dict : String → Mat)
    (adj_t_dict : EKey → SparseTensor) (es : List EKey)
    (od : List (String × Mat))
    (hdom : ∀ e ∈ es, (dGet? od e.2.2).isSome) (k : String) :
    ∃ od2, es.foldlM (c.step x_dict adj_t_dict) od = some od2 ∧
      dGet? od2 k = (dGet? od k).map
        (fun v => v +
          ((es.filter (fun e => e.2.2 = k)).map (c.msg x_dict adj_t_dict)).sum) := by
  induction es generalizing od with
  | nil =>
    refine ⟨od, rfl, ?_⟩
    cases dGet? od k <;> simp
  | cons e es ih =>
    have he : (dGet? od e.2.2).isSome := hdom e (List.mem_cons_self e es)
    obtain ⟨cur, hcur⟩ := Option.isSome_iff_exists.mp he
    set od1 := dSet od e.2.2 (cur + c.msg x_dict adj_t_dict e) with hod1
    have hstep : c.step x_dict adj_t_dict od e = some od1 := by
      simp [RGCNConv.step, hcur]
    have hdom1 : ∀ e2 ∈ es, (dGet? od1 e2.2.2).isSome := by
      intro e2 he2
      rw [hod1, dGet?_dSet]
      by_cases h : e2.2.2 = e.2.2
      · simp [h]
      · simpa [h] using hdom e2 (List.mem_cons_of_mem e he2)
    obtain ⟨od2, h1, h2⟩ := ih od1 hdom1
    refine ⟨od2, ?_, ?_⟩
    · rw [List.foldlM_cons, hstep]
      exact h1
    · rw [h2, hod1, dGet?_dSet]
      by_cases hk : k = e.2.2
      · subst hk
        rw [hcur]
        simp [add_assoc]
      · have hne : ¬ e.2.2 = k := fun h => hk h.symm
        simp [hk, hne]

/-- C1: for every feature dictionary and adjacency dictionary, and every
node type `k` of a well-formed `RGCNConv` layer (every edge type's target
is one of its node types), `forward` succeeds and its entry at `k` is
`root_lins[k](x_dict[k])` plus the sum, over the edge types `(s, r, d)`
with `d = k`, of `rel_lins[(s,r,d)]` applied to the mean aggregation
`adj_t.matmul(x_dict[s], reduce='mean')`. -/
theorem claim1_rgcnconv_forward (c : RGCNConv) (x_dict : String → Mat)
    (adj_t_dict : EKey → SparseTensor) (k : String)
    (hk : k ∈ c.node_types)
    (ht : ∀ e ∈ c.edge_types, e.2.2 ∈ c.node_types) :
    ∃ od, c.forward x_dict adj_t_dict = some od ∧
      dGet? od k = some ((c.rootLin k).applyMat (x_dict k) +
        ((c.edge_types.filter (fun e => e.2.2 = k)).map
          (c.msg x_dict adj_t_dict)).sum) := by
  have hdom : ∀ e ∈ c.edge_types, (dGet? (c.initOut x_dict) e.2.2).isSome := by
    intro e he
    rw [initOut_get]
    simp [ht e he]
  obtain ⟨od2, h1, h2⟩ :=
    stepFold_get c x_dict adj_t_dict c.edge_types (c.initOut x_dict) hdom k
  refine ⟨od2, h1, ?_⟩
  rw [h2, initOut_get]
  simp [hk]

theorem claim1_rgcnconv_forward_witness :
    ∃ od, convW.forward (fun _ => fun _ _ => 1) (fun _ => ⟨[(0, 0)], 1, 1⟩)
        = some od ∧
      dGet? od "paper" = some ((convW.rootLin "paper").applyMat
          ((fun _ => fun _ _ => 1) "paper") +
        ((convW.edge_types.filter (fun e => e.2.2 = "paper")).map
          (convW.msg (fun _ => fun _ _ => 1) (fun _ => ⟨[(0, 0)], 1, 1⟩))).sum) :=
  claim1_rgcnconv_forward convW (fun _ => fun _ _ => 1)
    (fun _ => ⟨[(0, 0)], 1, 1⟩) "paper" (by decide)
    (by decide)

theorem mul_list_sum_map {β : Type} (r : ℚ) (l : List β) (f : β → ℚ) :
    r * (l.map f).sum = (l.map (fun b => r * f b)).sum := by
  induction l with
  | nil => simp
  | cons b l ih => simp [mul_add, ih]

theorem finsum_list_swap {β : Type} (s : Finset Nat) (l : List β)
    (g : β → Nat → ℚ) :
    ∑ j ∈ s, (l.map (fun b => g b j)).sum
      = (l.map (fun b => ∑ j ∈ s, g b j)).sum := by
  induction l with
  | nil => simp
  | cons b l ih => simp [Finset.sum_add_distrib, ih]

/-- A bias-free linear map commutes with mean aggregation. -/
theorem relLin_matmulMean_comm (c : RGCNConv) (e : EKey) (a : SparseTensor)
    (x : Mat) :
    (c.relLin e).applyMat (a.matmulMean x)
      = a.matmulMean ((c.relLin e).applyMat x) := by
  funext i ch
  simp only [Linear.applyMat, Linear.applyVec, SparseTensor.matmulMean,
    RGCNConv.relLin, add_zero]
  simp only [← mul_div_assoc]
  rw [← Finset.sum_div]
  congr 1
  calc
    ∑ j ∈ Finset.range c.inChannels,
        c.relWeight e ch j * ((a.nbrs i).map (fun n => x n j)).sum
      = ∑ j ∈ Finset.range c.inChannels,
          ((a.nbrs i).map (fun n => c.relWeight e ch j * x n j)).sum := by
        refine Finset.sum_congr rfl ?_
        intro j _
        rw [mul_list_sum_map]
    _ = ((a.nbrs i).map
          (fun n => ∑ j ∈ Finset.range c.inChannels,
            c.relWeight e ch j * x n j)).sum := by
        rw [finsum_list_swap]

theorem msg_eq_msgPre (c : RGCNConv) (x_dict : String → Mat)
    (adj_t_dict : EKey → SparseTensor) :
    c.msg x_dict adj_t_dict = c.msgPre x_dict adj_t_dict := by
  funext e
  exact relLin_matmulMean_comm c e (adj_t_dict e) (x_dict e.1)

theorem forward_eq_forwardPre (c : RGCNConv) (x_dict : String → Mat)
    (adj_t_dict : EKey → SparseTensor) :
    c.forward x_dict adj_t_dict = c.forwardPre x_dict adj_t_dict := by
  unfold RGCNConv.forward RGCNConv.forwardPre
  have h : c.step x_dict adj_t_dict = c.stepPre x_dict adj_t_dict := by
    funext od e
    unfold RGCNConv.step RGCNConv.stepPre
    rw [msg_eq_msgPre]
  rw [h]

/-- C2: because `rel_lins` is built with `bias=False`, applying the
per-relation linear map to every source row and then mean-aggregating
equals mean-aggregating first and applying the linear map afterwards (as
`RGCNConv.forward` does); consequently the whole forward pass is unchanged
if the two steps are exchanged. -/
theorem claim2_bias_free_commutes (c : RGCNConv) (e : EKey) (a : SparseTensor)
    (x : Mat) (x_dict : String → Mat) (adj_t_dict : EKey → SparseTensor) :
    a.matmulMean ((c.relLin e).applyMat x)
        = (c.relLin e).applyMat (a.matmulMean x) ∧
      c.forward x_dict adj_t_dict = c.forwardPre x_dict adj_t_dict :=
  ⟨(relLin_matmulMean_comm c e a x).symm,
    forward_eq_forwardPre c x_dict adj_t_dict⟩

end OgbMag

namespace OgbMag

theorem foldl_append_flatMap {α β : Type} (l : List α) (f : α → List β)
    (init : List β) :
    l.foldl (fun acc x => acc ++ f x) init = init ++ l.flatMap f := by
  induction l generalizing init with
  | nil => simp
  | cons a l ih => simp [ih, List.flatMap_cons]

theorem mainTrace_eq_spec (cuda : Bool) (a : Args) (lossF : Nat → Nat → ℚ)
    (resF : Nat → Nat → ℚ × ℚ × ℚ) :
    mainTrace cuda a lossF resF = mainTraceSpec cuda a lossF resF := by
  unfold mainTrace mainTraceSpec runBody
  simp only [foldl_append_flatMap, List.append_assoc, List.cons_append,
    List.nil_append]

theorem countP_flatMap {α β : Type} (l : List α) (f : α → List β)
    (p : β → Bool) :
    (l.flatMap f).countP p = (l.map (fun x => (f x).countP p)).sum := by
  induction l with
  | nil => simp
  | cons a l ih => simp [List.flatMap_cons, List.countP_append, ih]

theorem sum_map_const {α : Type} (l : List α) (c : Nat) :
    (l.map (fun _ => c)).sum = l.length * c := by
  induction l with
  | nil => simp
  | cons a l ih => simp [ih, Nat.succ_mul, Nat.add_comm]

theorem epochBody_countP_optim (a : Args) (lossF : Nat → Nat → ℚ)
    (resF : Nat → Nat → ℚ × ℚ × ℚ) (r e : Nat) :
    (epochBody a lossF resF r e).countP Ev.isOptimStep = 1 := by
  unfold epochBody trainEvents
  by_cases h : e % a.log_steps = 0 <;>
    simp [h, List.countP_append, List.countP_cons, Ev.isOptimStep]

theorem epochBody_countP_newOpt (a : Args) (lossF : Nat → Nat → ℚ)
    (resF : Nat → Nat → ℚ × ℚ × ℚ) (r e : Nat) (q : ℚ) :
    (epochBody a lossF resF r e).countP (Ev.isNewOptWithLr q) = 0 := by
  unfold epochBody trainEvents
  by_cases h : e % a.log_steps = 0 <;>
    simp [h, List.countP_append, List.countP_cons, Ev.isNewOptWithLr]

theorem epochBody_countP_runStats (a : Args) (lossF : Nat → Nat → ℚ)
    (resF : Nat → Nat → ℚ × ℚ × ℚ) (r e : Nat) :
    (epochBody a lossF resF r e).countP Ev.isPrintRunStats = 0 := by
  unfold epochBody trainEvents
  by_cases h : e % a.log_steps = 0 <;>
    simp [h, List.countP_append, List.countP_cons, Ev.isPrintRunStats]

theorem runBody_countP_optim (a : Args) (lossF : Nat → Nat → ℚ)
    (resF : Nat → Nat → ℚ × ℚ × ℚ) (r : Nat) :
    (runBody a lossF resF r).countP Ev.isOptimStep = a.epochs := by
  unfold runBody
  simp [List.countP_append, List.countP_cons, countP_flatMap,
    epochBody_countP_optim, sum_map_const, Ev.isOptimStep]

theorem runBody_countP_newOpt (a : Args) (lossF : Nat → Nat → ℚ)
    (resF : Nat → Nat → ℚ × ℚ × ℚ) (r : Nat) :
    (runBody a lossF resF r).countP (Ev.isNewOptWithLr a.lr) = 1 := by
  unfold runBody
  simp [List.countP_append, List.countP_cons, countP_flatMap,
    epochBody_countP_newOpt, sum_map_const, Ev.isNewOptWithLr]

theorem runBody_countP_runStats (a : Args) (lossF : Nat → Nat → ℚ)
    (resF : Nat → Nat → ℚ × ℚ × ℚ) (r : Nat) :
    (runBody a lossF resF r).countP Ev.isPrintRunStats = 1 := by
  unfold runBody
  simp [List.countP_append, List.countP_cons, countP_flatMap,
    epochBody_countP_runStats, sum_map_const, Ev.isPrintRunStats]

/-- C4: `main` follows the spec's pipeline order.  The code-shaped trace
(nested left folds over `range(args.runs)` and `range(1, 1 + args.epochs)`)
equals the flat pipeline `mainTraceSpec`: per run a parameter reset and a
fresh optimizer, then for every epoch the training step (zero_grad,
forward, nll loss on the training indices, backward, optimizer step)
strictly before that epoch's three-split evaluation, then the per-run
statistics; the aggregate statistics over all runs are the last event. -/
theorem claim4_pipeline_order (cuda : Bool) (a : Args) (lossF : Nat → Nat → ℚ)
    (resF : Nat → Nat → ℚ × ℚ × ℚ) :
    mainTrace cuda a lossF resF = mainTraceSpec cuda a lossF resF ∧
    (mainTrace cuda a lossF resF).getLast? = some Ev.printAggStats := by
  refine ⟨mainTrace_eq_spec cuda a lossF resF, ?_⟩
  rw [mainTrace_eq_spec]
  unfold mainTraceSpec
  rw [← List.append_assoc]
  exact List.getLast?_concat _

/-- C6: the CLI exposes `--device`, `--num_layers`, `--hidden_channels`,
`--dropout`, `--lr`, `--epochs`, `--runs` with the defaults of the
`add_argument` calls, and the parsed values are the ones used for device
selection, model construction, the optimizer's learning rate, and the
run/epoch loop bounds. -/
theorem claim6_cli_flags (a : Args) (cuda : Bool) (lossF : Nat → Nat → ℚ)
    (resF : Nat → Nat → ℚ × ℚ × ℚ) :
    parseArgs [] = { device := 0, log_steps := 1, use_sage := false,
                     num_layers := 3, hidden_channels := 256,
                     dropout := 1 / 2, lr := 1 / 100, epochs := 300,
                     runs := 10 } ∧
    Ev.buildModel a.hidden_channels a.num_layers a.dropout
        ∈ mainTrace cuda a lossF resF ∧
    Ev.selectDevice (if cuda then some a.device else none)
        ∈ mainTrace cuda a lossF resF ∧
    (mainTrace cuda a lossF resF).countP (Ev.isNewOptWithLr a.lr) = a.runs ∧
    (mainTrace cuda a lossF resF).countP Ev.isPrintRunStats = a.runs ∧
    (mainTrace cuda a lossF resF).countP Ev.isOptimStep = a.runs * a.epochs := by
  refine ⟨rfl, ?_, ?_, ?_, ?_, ?_⟩ <;> rw [mainTrace_eq_spec] <;>
    unfold mainTraceSpec
  · simp
  · simp
  · simp [List.countP_append, List.countP_cons, countP_flatMap,
      runBody_countP_newOpt, sum_map_const, Ev.isNewOptWithLr]
  · simp [List.countP_append, List.countP_cons, countP_flatMap,
      runBody_countP_runStats, sum_map_const, Ev.isPrintRunStats]
  · simp [List.countP_append, List.countP_cons, countP_flatMap,
      runBody_countP_optim, sum_map_const, Ev.isOptimStep]

/-- C7 counterexample: with `--log_steps 2` and a single one-epoch run the
trace contains no per-epoch print at all, so it is not the case that the
console output includes every epoch's training loss and accuracies. -/
theorem claim7_counterexample_log_steps :
    exArgs7.runs = 1 ∧ exArgs7.epochs = 1 ∧
    (mainTrace false exArgs7 (fun _ _ => 0)
        (fun _ _ => (0, 0, 0))).countP Ev.isPrintEpoch = 0 := by
  decide

/-- C7 (amended): for every run and every epoch whose index is divisible
by `args.log_steps`, the console output includes that epoch's training
loss together with the three split accuracies; the per-run statistics and
the aggregate statistics over all runs are printed as well. -/
theorem claim7_amended_console_output (cuda : Bool) (a : Args)
    (lossF : Nat → Nat → ℚ) (resF : Nat → Nat → ℚ × ℚ × ℚ) (r e : Nat)
    (hr : r < a.runs) (he1 : 1 ≤ e) (he2 : e ≤ a.epochs)
    (hmod : e % a.log_steps = 0) :
    Ev.printEpoch r e (lossF r e) (resF r e) ∈ mainTrace cuda a lossF resF ∧
    Ev.printRunStats r ∈ mainTrace cuda a lossF resF ∧
    Ev.printAggStats ∈ mainTrace cuda a lossF resF := by
  rw [mainTrace_eq_spec]
  unfold mainTraceSpec
  refine ⟨?_, ?_, ?_⟩
  · apply List.mem_append_right
    apply List.mem_append_left
    apply List.mem_flatMap.mpr
    refine ⟨r, List.mem_range.mpr hr, ?_⟩
    unfold runBody
    apply List.mem_append_right
    apply List.mem_append_left
    apply List.mem_flatMap.mpr
    refine ⟨e - 1, List.mem_range.mpr (by omega), ?_⟩
    have he : e - 1 + 1 = e := by omega
    rw [he]
    unfold epochBody trainEvents
    simp [hmod]
  · apply List.mem_append_right
    apply List.mem_append_left
    apply List.mem_flatMap.mpr
    refine ⟨r, List.mem_range.mpr hr, ?_⟩
    unfold runBody
    simp
  · apply List.mem_append_right
    apply List.mem_append_right
    simp

theorem claim7_amended_console_output_witness :
    Ev.printEpoch 0 1 ((fun _ _ => (0 : ℚ)) 0 1)
        ((fun _ _ => ((0 : ℚ), (0 : ℚ), (0 : ℚ))) 0 1)
      ∈ mainTrace false defaultArgs (fun _ _ => 0) (fun _ _ => (0, 0, 0)) ∧
    Ev.printRunStats 0
      ∈ mainTrace false defaultArgs (fun _ _ => 0) (fun _ _ => (0, 0, 0)) ∧
    Ev.printAggStats
      ∈ mainTrace false defaultArgs (fun _ _ => 0) (fun _ _ => (0, 0, 0)) :=
  claim7_amended_console_output false defaultArgs (fun _ _ => 0)
    (fun _ _ => (0, 0, 0)) 0 1 (by decide) (by decide) (by decide) (by decide)

/-- C8: two executions whose parsed arguments differ only in `--use_sage`
behave identically except for the initial print of the argument
namespace: the first trace event is that print, and the traces agree from
the second event on. -/
theorem claim8_use_sage_inert (a : Args) (b : Bool) (cuda : Bool)
    (lossF : Nat → Nat → ℚ) (resF : Nat → Nat → ℚ × ℚ × ℚ) :
    (mainTrace cuda { a with use_sage := b } lossF resF).take 1
        = [Ev.printArgs { a with use_sage := b }] ∧
    (mainTrace cuda { a with use_sage := b } lossF resF).drop 1
        = (mainTrace cuda a lossF resF).drop 1 := by
  constructor
  · rw [mainTrace_eq_spec]
    rfl
  · rw [mainTrace_eq_spec, mainTrace_eq_spec]
    rfl

end OgbMag

namespace OgbMag

/-- C5: `test` returns the triple `(train_acc, valid_acc, test_acc)` in
that order, each the evaluator accuracy of the argmax-over-classes
predictions against `y_true` on that split's paper indices; the model is
consulted only in eval mode with gradients disabled, so any two models
that agree under `⟨training := false, gradEnabled := false⟩` produce the
same triple. -/
theorem claim5_test_triple (model model2 : EvalCtx → Mat) (numClasses : Nat)
    (y_true : Nat → Nat) (split_idx : SplitIdx)
    (hmodel : model ⟨false, false⟩ = model2 ⟨false, false⟩) :
    testFn model numClasses y_true split_idx =
      (accuracy y_true
         (fun i => argmaxIdx (model ⟨false, false⟩ i) numClasses)
         split_idx.train,
       accuracy y_true
         (fun i => argmaxIdx (model ⟨false, false⟩ i) numClasses)
         split_idx.valid,
       accuracy y_true
         (fun i => argmaxIdx (model ⟨false, false⟩ i) numClasses)
         split_idx.test) ∧
    testFn model numClasses y_true split_idx
      = testFn model2 numClasses y_true split_idx := by
  constructor
  · rfl
  · unfold testFn
    rw [hmodel]

theorem claim5_test_triple_witness :
    testFn (fun ctx : EvalCtx => cond ctx.training (fun _ _ => 1) (fun _ _ => 0)) 2
        (fun _ => 0) ⟨[0], [0], [0]⟩ =
      (accuracy (fun _ => 0)
         (fun i => argmaxIdx
           ((fun ctx : EvalCtx => cond ctx.training (fun _ _ => (1 : ℚ))
              (fun _ _ => 0)) ⟨false, false⟩ i) 2) [0],
       accuracy (fun _ => 0)
         (fun i => argmaxIdx
           ((fun ctx : EvalCtx => cond ctx.training (fun _ _ => (1 : ℚ))
              (fun _ _ => 0)) ⟨false, false⟩ i) 2) [0],
       accuracy (fun _ => 0)
         (fun i => argmaxIdx
           ((fun ctx : EvalCtx => cond ctx.training (fun _ _ => (1 : ℚ))
              (fun _ _ => 0)) ⟨false, false⟩ i) 2) [0]) ∧
    testFn (fun ctx : EvalCtx => cond ctx.training (fun _ _ => 1) (fun _ _ => 0)) 2
        (fun _ => 0) ⟨[0], [0], [0]⟩
      = testFn (fun _ => fun _ _ => 0) 2 (fun _ => 0) ⟨[0], [0], [0]⟩ :=
  claim5_test_triple (fun ctx : EvalCtx => cond ctx.training (fun _ _ => 1) (fun _ _ => 0))
    (fun _ => fun _ _ => 0) 2 (fun _ => 0) ⟨[0], [0], [0]⟩ rfl

theorem writeSeq_snd (rand : Nat → ℚ) (ks : List PKey) (p : Params) (s : Nat) :
    (writeSeq rand ks p s).2 = s + ks.length := by
  induction ks generalizing p s with
  | nil => rfl
  | cons k ks ih =>
    unfold writeSeq at ih ⊢
    rw [List.foldl_cons, ih]
    simp only [List.length_cons]
    omega

theorem writeSeq_notMem (rand : Nat → ℚ) (ks : List PKey) (p : Params)
    (s : Nat) (k : PKey) (hk : k ∉ ks) :
    (writeSeq rand ks p s).1 k = p k := by
  induction ks generalizing p s with
  | nil => rfl
  | cons k0 ks ih =>
    unfold writeSeq at ih ⊢
    rw [List.foldl_cons]
    rw [ih _ _ (fun h => hk (List.mem_cons_of_mem k0 h))]
    have hne : k ≠ k0 := fun h => hk (h ▸ List.mem_cons_self k0 ks)
    simp [hne]

theorem writeSeq_agree (rand : Nat → ℚ) (ks : List PKey) (p p2 : Params)
    (s : Nat) (k : PKey) (hk : k ∈ ks) :
    (writeSeq rand ks p s).1 k = (writeSeq rand ks p2 s).1 k := by
  induction ks generalizing p p2 s with
  | nil => cases hk
  | cons k0 ks ih =>
    unfold writeSeq at ih ⊢
    rw [List.foldl_cons, List.foldl_cons]
    by_cases hmem : k ∈ ks
    · exact ih _ _ _ hmem
    · have hk0 : k = k0 := by
        rcases List.mem_cons.mp hk with h | h
        · exact h
        · exact absurd h hmem
      have h1 := writeSeq_notMem rand ks
        (fun k2 => if k2 = k0 then rand s else p k2) (s + 1) k hmem
      have h2 := writeSeq_notMem rand ks
        (fun k2 => if k2 = k0 then rand s else p2 k2) (s + 1) k hmem
      unfold writeSeq at h1 h2
      rw [h1, h2]
      simp [hk0]

theorem epochsLoop_seed (dyn : TrainDyn) (epochs : Nat)
    (st : Params × AdamState × Nat) :
    (epochsLoop dyn epochs st).2.2 = st.2.2 + epochs * dyn.rngCost := by
  unfold epochsLoop
  have h : ∀ (l : List Nat) (st2 : Params × AdamState × Nat),
      ((l.foldl (fun st3 _ =>
        ((dyn.update st3.1 st3.2.1).1, (dyn.update st3.1 st3.2.1).2,
          st3.2.2 + dyn.rngCost)) st2).2.2) = st2.2.2 + l.length * dyn.rngCost := by
    intro l
    induction l with
    | nil => intro st2; simp
    | cons x l ih =>
      intro st2
      rw [List.foldl_cons, ih]
      simp [Nat.succ_mul]
      omega
  rw [h]
  simp

theorem doRun_obs_eq (rand : Nat → ℚ) (sh : RGCNShape) (dyn1 dyn2 : TrainDyn)
    (lr : ℚ) (epochs : Nat) (p1 p2 : Params) (s : Nat) :
    (doRun rand sh dyn1 lr epochs (p1, s)).1
      = (doRun rand sh dyn2 lr epochs (p2, s)).1 := by
  unfold doRun
  simp only [Prod.mk.injEq, and_true]
  exact List.map_congr_left
    (fun k hk => writeSeq_agree rand sh.allKeys p1 p2 s k hk)

theorem doRun_seed_eq (rand : Nat → ℚ) (sh : RGCNShape) (dyn1 dyn2 : TrainDyn)
    (lr : ℚ) (epochs : Nat) (p1 p2 : Params) (s : Nat)
    (hc : dyn1.rngCost = dyn2.rngCost) :
    (doRun rand sh dyn1 lr epochs (p1, s)).2.2
      = (doRun rand sh dyn2 lr epochs (p2, s)).2.2 := by
  unfold doRun
  simp only
  rw [epochsLoop_seed, epochsLoop_seed, writeSeq_snd, writeSeq_snd, hc]

/-- C3: every run begins from freshly re-initialized parameters and a
fresh Adam optimizer.  For the model shape produced by `RGCN.__init__`,
the per-run start observations (all parameter values right after
`reset_parameters`, plus the optimizer the epochs start from) are the
same for any two executions that share the random stream, regardless of
the initial parameter state and of the training dynamics (as long as both
dynamics consume the stream at the same rate): no trained parameter or
optimizer state leaks from one run into the start of the next. -/
theorem claim3_fresh_restarts (rand : Nat → ℚ)
    (node_types x_types : List String) (edge_types : List EKey)
    (num_layers : Nat) (out_type : String) (dyn1 dyn2 : TrainDyn) (lr : ℚ)
    (epochs runs : Nat) (p1 p2 : Params) (seed : Nat)
    (hc : dyn1.rngCost = dyn2.rngCost) :
    runStarts rand
        (RGCNShape.ofConfig node_types x_types edge_types num_layers out_type)
        dyn1 lr epochs runs p1 seed
      = runStarts rand
          (RGCNShape.ofConfig node_types x_types edge_types num_layers out_type)
          dyn2 lr epochs runs p2 seed := by
  set sh := RGCNShape.ofConfig node_types x_types edge_types num_layers out_type
  unfold runStarts
  have h : ∀ (l : List Nat) (acc1 acc2 : List (List ℚ × AdamState) × (Params × Nat)),
      acc1.1 = acc2.1 → acc1.2.2 = acc2.2.2 →
      ((l.foldl (fun acc _ =>
          (acc.1 ++ [(doRun rand sh dyn1 lr epochs acc.2).1],
            (doRun rand sh dyn1 lr epochs acc.2).2)) acc1).1
        = (l.foldl (fun acc _ =>
            (acc.1 ++ [(doRun rand sh dyn2 lr epochs acc.2).1],
              (doRun rand sh dyn2 lr epochs acc.2).2)) acc2).1) := by
    intro l
    induction l with
    | nil => intro acc1 acc2 h1 h2; exact h1
    | cons x l ih =>
      rintro ⟨l1, q1, s1⟩ ⟨l2, q2, s2⟩ h1 h2
      simp only at h1 h2
      subst h1
      subst h2
      rw [List.foldl_cons, List.foldl_cons]
      apply ih
      · simp only
        rw [doRun_obs_eq rand sh dyn1 dyn2 lr epochs q1 q2 s1]
      · simp only
        rw [doRun_seed_eq rand sh dyn1 dyn2 lr epochs q1 q2 s1 hc]
  exact h (List.range runs) ([], (p1, seed)) ([], (p2, seed)) rfl rfl

end OgbMag

namespace OgbMag

theorem dGet?_mem {κ α : Type} [DecidableEq κ] (d : List (κ × α)) (k : κ)
    (v : α) (h : dGet? d k = some v) : (k, v) ∈ d := by
  induction d with
  | nil => cases h
  | cons p d ih =>
    obtain ⟨k0, v0⟩ := p
    by_cases hk : k = k0
    · subst hk
      simp [dGet?] at h
      subst h
      exact List.mem_cons_self _ _
    · simp [dGet?, hk] at h
      exact List.mem_cons_of_mem _ (ih h)

theorem dSet_mem {κ α : Type} [DecidableEq κ] (d : List (κ × α)) (k : κ)
    (v : α) (kr : κ × α) (h : kr ∈ dSet d k v) : kr ∈ d ∨ kr = (k, v) := by
  induction d with
  | nil =>
    simp [dSet] at h
    exact Or.inr h
  | cons p d ih =>
    obtain ⟨k0, v0⟩ := p
    by_cases hk : k0 = k
    · simp only [dSet, if_pos hk] at h
      rcases List.mem_cons.mp h with h2 | h2
      · exact Or.inr h2
      · exact Or.inl (List.mem_cons_of_mem _ h2)
    · simp only [dSet, if_neg hk] at h
      rcases List.mem_cons.mp h with h2 | h2
      · exact Or.inl (h2 ▸ List.mem_cons_self _ _)
      · rcases ih h2 with h3 | h3
        · exact Or.inl (List.mem_cons_of_mem _ h3)
        · exact Or.inr h3

theorem adjStep_untouched (numNodes : String → Nat)
    (d : List (EKey × SparseTensor)) (p : EKey × List Nat × List Nat)
    (q : EKey) (hq : q ∉ writtenKeys p) :
    dGet? (adjStep numNodes d p) q = dGet? d q := by
  unfold adjStep
  unfold writtenKeys at hq
  by_cases hpp : p.1.1 ≠ p.1.2.2
  · rw [if_pos hpp] at hq
    simp only [List.mem_cons, List.not_mem_nil, or_false, not_or] at hq
    simp only [if_pos hpp]
    rw [dGet?_dSet, if_neg hq.2, dGet?_dSet, if_neg hq.1]
  · rw [if_neg hpp] at hq
    simp only [List.mem_cons, List.not_mem_nil, or_false, not_or] at hq
    simp only [if_neg hpp]
    rw [dGet?_dSet, if_neg hq]

theorem adjFold_untouched (numNodes : String → Nat)
    (l : List (EKey × List Nat × List Nat)) (d0 : List (EKey × SparseTensor))
    (q : EKey) (hq : ∀ p ∈ l, q ∉ writtenKeys p) :
    dGet? (l.foldl (adjStep numNodes) d0) q = dGet? d0 q := by
  induction l generalizing d0 with
  | nil => rfl
  | cons p l ih =>
    rw [List.foldl_cons,
      ih _ (fun p2 h2 => hq p2 (List.mem_cons_of_mem p h2)),
      adjStep_untouched _ _ _ _ (hq p (List.mem_cons_self p l))]

/-- C10: after the conversion loop of `main`, every relation is present in
both directions.  Provided the source/target pairs of the original edge
types are distinct and no other original edge type runs between the same
two node types in the opposite direction (both true of ogbn-mag), an
original edge type `(s, 'to', d)` with row/col data `rc` yields: for
`s ≠ d`, the entry at `(s, 'to', d)` is the transpose of the adjacency
built with sparse sizes `(num_nodes[s], num_nodes[d])` and the entry at
`(d, 'to', s)` is the untransposed adjacency; for `s = d` the entry is
the symmetrized adjacency; and `edge_index_dict` is `None` afterwards. -/
theorem claim10_adj_conversion (numNodes : String → Nat)
    (eid : List (EKey × List Nat × List Nat)) (s d : String)
    (rc : List Nat × List Nat)
    (hmem : ((s, "to", d), rc) ∈ eid)
    (hnd : (eid.map (fun p => (p.1.1, p.1.2.2))).Nodup)
    (hrev : s ≠ d → ∀ p ∈ eid, ¬(p.1.1 = d ∧ p.1.2.2 = s)) :
    (convertGraph numNodes eid).edge_index_dict = none ∧
    (s ≠ d →
      dGet? (convertGraph numNodes eid).adj_t_dict (s, "to", d)
          = some (SparseTensor.t ⟨rc.1.zip rc.2, numNodes s, numNodes d⟩) ∧
      dGet? (convertGraph numNodes eid).adj_t_dict (d, "to", s)
          = some ⟨rc.1.zip rc.2, numNodes s, numNodes d⟩) ∧
    (s = d →
      dGet? (convertGraph numNodes eid).adj_t_dict (s, "to", d)
          = some (SparseTensor.toSymmetric
              ⟨rc.1.zip rc.2, numNodes s, numNodes d⟩)) := by
  obtain ⟨l1, l2, hsplit⟩ := List.append_of_mem hmem
  subst hsplit
  have hl2 : ∀ p ∈ l2, ¬(p.1.1 = s ∧ p.1.2.2 = d) := by
    intro p hp hc
    rw [List.map_append, List.map_cons] at hnd
    have h1 := (List.nodup_cons.mp hnd.of_append_right).1
    exact h1 (List.mem_map.mpr ⟨p, hp, by simp [hc.1, hc.2]⟩)
  have hfold : ∀ q : EKey, (∀ p ∈ l2, q ∉ writtenKeys p) →
      dGet? (convertGraph numNodes
          (l1 ++ ((s, "to", d), rc) :: l2)).adj_t_dict q
        = dGet? (adjStep numNodes (l1.foldl (adjStep numNodes) [])
            ((s, "to", d), rc)) q := by
    intro q hq
    show dGet? ((l1 ++ ((s, "to", d), rc) :: l2).foldl (adjStep numNodes) []) q
      = _
    rw [List.foldl_append, List.foldl_cons]
    exact adjFold_untouched numNodes l2 _ q hq
  refine ⟨rfl, ?_, ?_⟩
  · intro hsd
    have hrev2 := hrev hsd
    constructor
    · have hunt : ∀ p ∈ l2, ((s, "to", d) : EKey) ∉ writtenKeys p := by
        intro p hp hw
        have hpfull : p ∈ l1 ++ ((s, "to", d), rc) :: l2 :=
          List.mem_append_right _ (List.mem_cons_of_mem _ hp)
        unfold writtenKeys at hw
        by_cases hpp : p.1.1 ≠ p.1.2.2
        · rw [if_pos hpp] at hw
          rcases List.mem_cons.mp hw with h1 | h1
          · exact hl2 p hp ⟨(congrArg (fun t : EKey => t.1) h1).symm,
              (congrArg (fun t : EKey => t.2.2) h1).symm⟩
          · have h2 : ((s, "to", d) : EKey) = (p.1.2.2, "to", p.1.1) := by
              simpa using h1
            exact hrev2 p hpfull ⟨(congrArg (fun t : EKey => t.2.2) h2).symm,
              (congrArg (fun t : EKey => t.1) h2).symm⟩
        · rw [if_neg hpp] at hw
          have h1 : ((s, "to", d) : EKey) = p.1 := by simpa using hw
          have hpp2 : p.1.1 = p.1.2.2 := not_not.mp hpp
          exact hsd ((congrArg (fun t : EKey => t.1) h1).trans
            (hpp2.trans (congrArg (fun t : EKey => t.2.2) h1).symm))
      rw [hfold _ hunt]
      unfold adjStep
      dsimp only
      rw [if_pos hsd]
      have hne : ((s, "to", d) : EKey) ≠ (d, "to", s) := by
        intro hcontra
        exact hsd (congrArg (fun t : EKey => t.1) hcontra)
      rw [dGet?_dSet, if_neg hne, dGet?_dSet, if_pos rfl]
    · have hunt : ∀ p ∈ l2, ((d, "to", s) : EKey) ∉ writtenKeys p := by
        intro p hp hw
        have hpfull : p ∈ l1 ++ ((s, "to", d), rc) :: l2 :=
          List.mem_append_right _ (List.mem_cons_of_mem _ hp)
        unfold writtenKeys at hw
        by_cases hpp : p.1.1 ≠ p.1.2.2
        · rw [if_pos hpp] at hw
          rcases List.mem_cons.mp hw with h1 | h1
          · exact hrev2 p hpfull ⟨(congrArg (fun t : EKey => t.1) h1).symm,
              (congrArg (fun t : EKey => t.2.2) h1).symm⟩
          · have h2 : ((d, "to", s) : EKey) = (p.1.2.2, "to", p.1.1) := by
              simpa using h1
            exact hl2 p hp ⟨(congrArg (fun t : EKey => t.2.2) h2).symm,
              (congrArg (fun t : EKey => t.1) h2).symm⟩
        · rw [if_neg hpp] at hw
          have h1 : ((d, "to", s) : EKey) = p.1 := by simpa using hw
          exact hrev2 p hpfull ⟨(congrArg (fun t : EKey => t.1) h1).symm,
            (congrArg (fun t : EKey => t.2.2) h1).symm⟩
      rw [hfold _ hunt]
      unfold adjStep
      dsimp only
      rw [if_pos hsd]
      rw [dGet?_dSet, if_pos rfl]
  · intro hsd
    subst hsd
    have hunt : ∀ p ∈ l2, ((s, "to", s) : EKey) ∉ writtenKeys p := by
      intro p hp hw
      unfold writtenKeys at hw
      by_cases hpp : p.1.1 ≠ p.1.2.2
      · rw [if_pos hpp] at hw
        rcases List.mem_cons.mp hw with h1 | h1
        · exact hl2 p hp ⟨(congrArg (fun t : EKey => t.1) h1).symm,
            (congrArg (fun t : EKey => t.2.2) h1).symm⟩
        · have h2 : ((s, "to", s) : EKey) = (p.1.2.2, "to", p.1.1) := by
            simpa using h1
          exact hpp ((congrArg (fun t : EKey => t.2.2) h2).symm.trans
            (congrArg (fun t : EKey => t.1) h2))
      · rw [if_neg hpp] at hw
        have h1 : ((s, "to", s) : EKey) = p.1 := by simpa using hw
        exact hl2 p hp ⟨(congrArg (fun t : EKey => t.1) h1).symm,
          (congrArg (fun t : EKey => t.2.2) h1).symm⟩
    rw [hfold _ hunt]
    unfold adjStep
    dsimp only
    rw [if_neg (by simp), dGet?_dSet, if_pos rfl]

theorem claim10_adj_conversion_witness :
    (convertGraph (fun _ => 2)
        [(("a", "to", "b"), ([0], [1]))]).edge_index_dict = none ∧
    ("a" ≠ "b" →
      dGet? (convertGraph (fun _ => 2)
          [(("a", "to", "b"), ([0], [1]))]).adj_t_dict ("a", "to", "b")
          = some (SparseTensor.t
              ⟨([0] : List Nat).zip [1], 2, 2⟩) ∧
      dGet? (convertGraph (fun _ => 2)
          [(("a", "to", "b"), ([0], [1]))]).adj_t_dict ("b", "to", "a")
          = some ⟨([0] : List Nat).zip [1], 2, 2⟩) ∧
    ("a" = "b" →
      dGet? (convertGraph (fun _ => 2)
          [(("a", "to", "b"), ([0], [1]))]).adj_t_dict ("a", "to", "b")
          = some (SparseTensor.toSymmetric
              ⟨([0] : List Nat).zip [1], 2, 2⟩)) :=
  claim10_adj_conversion (fun _ => 2) [(("a", "to", "b"), ([0], [1]))]
    "a" "b" ([0], [1]) (by decide) (by decide) (by decide)

end OgbMag

namespace OgbMag

theorem foldl_inv {α β : Type} (P : β → Prop) (f : β → α → β) :
    ∀ (l : List α) (b : β), P b →
      (∀ b2 a, a ∈ l → P b2 → P (f b2 a)) → P (l.foldl f b)
  | [], _, hb, _ => hb
  | a :: l, b, hb, hf => by
    rw [List.foldl_cons]
    exact foldl_inv P f l (f b a) (hf b a (List.mem_cons_self a l) hb)
      (fun b2 a2 h2 hP => hf b2 a2 (List.mem_cons_of_mem a h2) hP)

theorem heapLow_alloc (n0 : Nat) (m0 : Nat → Mat) (h : Heap) (m : Mat)
    (hl : HeapLow n0 m0 h) : HeapLow n0 m0 (h.alloc m).2 := by
  obtain ⟨h1, h2⟩ := hl
  refine ⟨?_, ?_⟩
  · simp only [Heap.alloc]
    omega
  · intro r hr
    simp only [Heap.alloc]
    rw [if_neg (by omega)]
    exact h2 r hr

theorem heapLow_write (n0 : Nat) (m0 : Nat → Mat) (h : Heap) (r0 : Nat)
    (m : Mat) (hl : HeapLow n0 m0 h) (hr0 : n0 ≤ r0) :
    HeapLow n0 m0 (h.write r0 m) := by
  obtain ⟨h1, h2⟩ := hl
  refine ⟨h1, ?_⟩
  intro r hr
  simp only [Heap.write]
  rw [if_neg (by omega)]
  exact h2 r hr

theorem rootStep_inv (c : RGCNConv) (xref : String → Nat) (n0 : Nat)
    (m0 : Nat → Mat) (p : List (String × Nat) × Heap) (k : String)
    (hP : ConvInv n0 m0 p) :
    ConvInv n0 m0 (RGCNConvH.rootStep c xref p k) := by
  unfold RGCNConvH.rootStep
  dsimp only
  refine ⟨heapLow_alloc n0 m0 p.2 _ hP.1, ?_⟩
  intro kr hkr
  rcases dSet_mem _ _ _ _ hkr with h2 | h2
  · exact hP.2 kr h2
  · rw [h2]
    exact hP.1.1

theorem addStep_inv (c : RGCNConv) (xref : String → Nat)
    (adj_t_dict : EKey → SparseTensor) (n0 : Nat) (m0 : Nat → Mat)
    (p : List (String × Nat) × Heap) (e : EKey) (hP : ConvInv n0 m0 p) :
    ConvInv n0 m0 (RGCNConvH.addStep c xref adj_t_dict p e) := by
  unfold RGCNConvH.addStep
  dsimp only
  cases hget : dGet? p.1 e.2.2 with
  | none => exact ⟨heapLow_alloc n0 m0 p.2 _ hP.1, hP.2⟩
  | some r =>
    refine ⟨?_, hP.2⟩
    exact heapLow_write n0 m0 _ r _ (heapLow_alloc n0 m0 p.2 _ hP.1)
      (hP.2 (e.2.2, r) (dGet?_mem _ _ _ hget))

theorem convH_low (c : RGCNConv) (xref : String → Nat)
    (adj_t_dict : EKey → SparseTensor) (n0 : Nat) (m0 : Nat → Mat) (h : Heap)
    (hl : HeapLow n0 m0 h) :
    ConvInv n0 m0 (RGCNConvH.forward c xref adj_t_dict h) := by
  unfold RGCNConvH.forward
  exact foldl_inv (ConvInv n0 m0) (RGCNConvH.addStep c xref adj_t_dict)
    c.edge_types _
    (foldl_inv (ConvInv n0 m0) (RGCNConvH.rootStep c xref) c.node_types
      ([], h) ⟨hl, by simp⟩
      (fun p k _ hP => rootStep_inv c xref n0 m0 p k hP))
    (fun p e _ hP => addStep_inv c xref adj_t_dict n0 m0 p e hP)

theorem linStep_heapLow (net : RGCNNetH) (n0 : Nat) (m0 : Nat → Mat)
    (p : List (String × Nat) × Heap) (kr : String × Nat)
    (hP : HeapLow n0 m0 p.2) : HeapLow n0 m0 (net.linStep p kr).2 := by
  unfold RGCNNetH.linStep
  dsimp only
  exact heapLow_alloc n0 m0 p.2 _ hP

theorem reluDropStep_heapLow (net : RGCNNetH) (training : Bool)
    (mask : String → Mat) (n0 : Nat) (m0 : Nat → Mat)
    (p : List (String × Nat) × Heap) (kr : String × Nat) (hkr : n0 ≤ kr.2)
    (hP : HeapLow n0 m0 p.2) :
    HeapLow n0 m0 (net.reluDropStep training mask p kr).2 := by
  unfold RGCNNetH.reluDropStep
  dsimp only
  exact heapLow_alloc n0 m0 _ _ (heapLow_write n0 m0 p.2 kr.2 _ hP hkr)

theorem convStep_heapLow (net : RGCNNetH) (training : Bool)
    (masks : Nat → String → Mat) (adj_t_dict : EKey → SparseTensor)
    (n0 : Nat) (m0 : Nat → Mat) (p : List (String × Nat) × Heap)
    (ic : Nat × RGCNConv) (hP : HeapLow n0 m0 p.2) :
    HeapLow n0 m0 (net.convStep training masks adj_t_dict p ic).2 := by
  unfold RGCNNetH.convStep
  dsimp only
  have ho := convH_low ic.2 (refOf p.1) adj_t_dict n0 m0 p.2 hP
  exact foldl_inv (fun p2 : List (String × Nat) × Heap => HeapLow n0 m0 p2.2)
    (net.reluDropStep training (masks ic.1))
    (RGCNConvH.forward ic.2 (refOf p.1) adj_t_dict p.2).1
    (RGCNConvH.forward ic.2 (refOf p.1) adj_t_dict p.2)
    ho.1
    (fun p2 kr hkr hP2 =>
      reluDropStep_heapLow net training (masks ic.1) n0 m0 p2 kr
        (ho.2 kr hkr) hP2)

theorem stage_heapLow (net : RGCNNetH) (training : Bool)
    (masks : Nat → String → Mat) (x_dict : List (String × Nat))
    (adj_t_dict : EKey → SparseTensor) (n0 : Nat) (m0 : Nat → Mat) (h : Heap)
    (hl : HeapLow n0 m0 h) :
    HeapLow n0 m0 (net.stage training masks x_dict adj_t_dict h).2 := by
  unfold RGCNNetH.stage
  refine foldl_inv (fun p : List (String × Nat) × Heap => HeapLow n0 m0 p.2)
    (net.convStep training masks adj_t_dict) net.convs.dropLast.enum _ ?_ ?_
  · exact foldl_inv (fun p : List (String × Nat) × Heap => HeapLow n0 m0 p.2)
      net.linStep x_dict (x_dict, h) hl
      (fun p kr _ hP => linStep_heapLow net n0 m0 p kr hP)
  · intro p ic _ hP
    exact convStep_heapLow net training masks adj_t_dict n0 m0 p ic hP

theorem netH_forward_heapLow (net : RGCNNetH) (training : Bool)
    (masks : Nat → String → Mat) (lsm : Mat → Mat)
    (x_dict : List (String × Nat)) (adj_t_dict : EKey → SparseTensor)
    (n0 : Nat) (m0 : Nat → Mat) (h : Heap) (hl : HeapLow n0 m0 h) :
    HeapLow n0 m0
      ((net.forward training masks lsm x_dict adj_t_dict h).2) := by
  have hs := stage_heapLow net training masks x_dict adj_t_dict n0 m0 h hl
  unfold RGCNNetH.forward
  dsimp only
  split
  · exact hs
  · next cl heq =>
    have ho := convH_low cl
      (refOf (net.stage training masks x_dict adj_t_dict h).1) adj_t_dict
      n0 m0 (net.stage training masks x_dict adj_t_dict h).2 hs
    split
    · exact ho.1
    · exact heapLow_alloc n0 m0 _ _ ho.1

/-- C9: `RGCN.forward` never modifies the caller's `x_dict` nor the
tensors it contains.  It rebinds keys only in the shallow copy of the
dictionary (the dictionary is a value here), and every in-place
operation it triggers (the conv's `add_`, `F.relu_`) targets only
references allocated inside the call, so after `forward` returns, every
tensor the caller's dictionary refers to is unchanged in the heap. -/
theorem claim9_forward_frame (net : RGCNNetH) (training : Bool)
    (masks : Nat → String → Mat) (lsm : Mat → Mat)
    (x_dict : List (String × Nat)) (adj_t_dict : EKey → SparseTensor)
    (h : Heap) (k : String) (r : Nat) (_hmem : (k, r) ∈ x_dict)
    (hr : r < h.nextRef) :
    ((net.forward training masks lsm x_dict adj_t_dict h).2).mem r
      = h.mem r :=
  (netH_forward_heapLow net training masks lsm x_dict adj_t_dict
    h.nextRef h.mem h ⟨le_refl _, fun _ _ => rfl⟩).2 r hr

theorem claim9_forward_frame_witness :
    ((netW.forward false (fun _ _ => fun _ _ => 0) id [("paper", 0)]
        (fun _ => ⟨[], 1, 1⟩) ⟨1, fun _ => fun _ _ => 0⟩).2).mem 0
      = (⟨1, fun _ => fun _ _ => 0⟩ : Heap).mem 0 :=
  claim9_forward_frame netW false (fun _ _ => fun _ _ => 0) id
    [("paper", 0)] (fun _ => ⟨[], 1, 1⟩) ⟨1, fun _ => fun _ _ => 0⟩
    "paper" 0 (by simp) (by decide)

theorem claim3_fresh_restarts_witness :
    runStarts (fun n => (n : ℚ))
        (RGCNShape.ofConfig ["author", "paper"] ["paper"]
          [("author", "to", "paper")] 2 "paper")
        ⟨fun p o => (p, o), 0⟩ 1 1 2 (fun _ => 0) 0
      = runStarts (fun n => (n : ℚ))
          (RGCNShape.ofConfig ["author", "paper"] ["paper"]
            [("author", "to", "paper")] 2 "paper")
          ⟨fun _ o => (fun _ => 5, o), 0⟩ 1 1 2 (fun _ => 1) 0 :=
  claim3_fresh_restarts (fun n => (n : ℚ)) ["author", "paper"] ["paper"]
    [("author", "to", "paper")] 2 "paper" ⟨fun p o => (p, o), 0⟩
    ⟨fun _ o => (fun _ => 5, o), 0⟩ 1 1 2 (fun _ => 0) (fun _ => 1) 0 rfl

end OgbMag
